import Mathlib

/-!
A shallow embedding of the streaming-response normalization pipeline of the
chatbot repository: the client-side SSE reader and text collector
(`src/src/hooks/useChat.ts`), the server-side text extractor, sanitizer and
SSE reframer (`src/supabase/functions/chat/index.ts`), and the transcript
update logic.

Modelling conventions:
* JavaScript strings are modelled as Lean `String` / `List Char`.
* JSON values are modelled by the mutual inductive `Json` below; JSON numbers
  are restricted to integers (the payloads handled by the code carry no
  fractional numbers), and object fields are kept in insertion order.
* `undefined` and missing fields are modelled by `Option.none`; explicit JSON
  `null` by `Json.null`.  Property access `x.k` on a non-object is modelled as
  `none` (in JavaScript it evaluates to `undefined`; the code never reaches a
  throwing access on the inputs described by the claims).
* Regex-based string operations are implemented character by character with
  the semantics of the corresponding JavaScript regexes, with the whitespace
  class `\s` (and `String.trim`) restricted to the four ASCII whitespace
  characters `' '`, `'\t'`, `'\n'`, `'\r'` the code exercises.
* Recursive functions that must evaluate inside the kernel are written with
  structural recursion, using an explicit fuel argument where the recursion
  is not structural; wrappers supply a sufficient fuel.
-/

/-- Whitespace class modelling JavaScript `\s` and `String.prototype.trim`
(restricted to the ASCII whitespace characters used by the code). -/
def isWS (c : Char) : Bool :=
  c == ' ' || c == '\t' || c == '\n' || c == '\r'

/-- JavaScript `String.prototype.trim`: drop leading and trailing whitespace. -/
def trimChars (l : List Char) : List Char :=
  ((l.dropWhile isWS).reverse.dropWhile isWS).reverse

/-- `trim` on `String`s. -/
def trimStr (s : String) : String :=
  String.mk (trimChars s.data)

mutual
/-- Decoded JSON values (numbers restricted to integers, fields ordered). -/
inductive Json where
  | null
  | bool (b : Bool)
  | num (n : Int)
  | str (s : String)
  | arr (l : JsonArr)
  | obj (o : JsonObj)
inductive JsonArr where
  | nil
  | cons (hd : Json) (tl : JsonArr)
inductive JsonObj where
  | nil
  | cons (k : String) (v : Json) (tl : JsonObj)
end

deriving instance DecidableEq for Json, JsonArr, JsonObj

/-- The elements of a JSON array, as a Lean list. -/
def toListA : JsonArr → List Json
  | .nil => []
  | .cons x tl => x :: toListA tl

/-- The fields of a JSON object, in insertion order. -/
def fieldsO : JsonObj → List (String × Json)
  | .nil => []
  | .cons k v tl => (k, v) :: fieldsO tl

/-- Look up a field of a JSON object (first binding wins). -/
def lookupO : JsonObj → String → Option Json
  | .nil, _ => none
  | .cons k v tl, key => if k == key then some v else lookupO tl key

/-- JavaScript property access `x.k`: the field value for objects, otherwise
`undefined` (modelled as `none`). -/
def jGet : Json → String → Option Json
  | .obj o, key => lookupO o key
  | _, _ => none

/-- Chained (optional-chaining style) access `x?.k1?.k2`. -/
def jGet2 (j : Json) (k1 k2 : String) : Option Json :=
  (jGet j k1).bind (fun v => jGet v k2)

/-- JavaScript truthiness of a JSON value. -/
def truthy : Json → Bool
  | .null => false
  | .bool b => b
  | .num n => n != 0
  | .str s => s != ""
  | .arr _ => true
  | .obj _ => true

/-- Truthiness of a possibly-`undefined` value. -/
def otruthy : Option Json → Bool
  | none => false
  | some v => truthy v

/-- `typeof x === "string"` together with the string value. -/
def getStrO : Option Json → Option String
  | some (.str s) => some s
  | _ => none

/-- Guarded two-step access `x.k1 && x.k1.k2`, yielding `k2`'s value only if
both `x.k1` and `x.k1.k2` are truthy (as in the code's `obj.output &&
obj.output.content` and `c.message && c.message.content` guards). -/
def jGetT2 (j : Json) (k1 k2 : String) : Option Json :=
  match jGet j k1 with
  | some m =>
    if truthy m then
      match jGet m k2 with
      | some v => if truthy v then some v else none
      | none => none
    else none
  | none => none

mutual
/-- JavaScript `String(x)` coercion on JSON values. -/
def jsString : Json → String
  | .null => "null"
  | .bool true => "true"
  | .bool false => "false"
  | .num n => toString n
  | .str s => s
  | .arr l => jsArrJoin l
  | .obj _ => "[object Object]"
/-- `Array.prototype.join` element coercion: like `String(x)` except that
`null`/`undefined` elements become the empty string. -/
def jsElemStr : Json → String
  | .null => ""
  | .bool true => "true"
  | .bool false => "false"
  | .num n => toString n
  | .str s => s
  | .arr l => jsArrJoin l
  | .obj _ => "[object Object]"
/-- `Array.prototype.join(",")` (the coercion used inside `String(array)`). -/
def jsArrJoin : JsonArr → String
  | .nil => ""
  | .cons x .nil => jsElemStr x
  | .cons x tl => jsElemStr x ++ "," ++ jsArrJoin tl
end

mutual
/-- Size of a JSON value, used as recursion fuel for the extractors. -/
def sizeJ : Json → Nat
  | .null => 1
  | .bool _ => 1
  | .num _ => 1
  | .str _ => 1
  | .arr l => sizeA l + 1
  | .obj o => sizeO o + 1
/-- Size of a JSON array. -/
def sizeA : JsonArr → Nat
  | .nil => 1
  | .cons x tl => sizeJ x + sizeA tl + 1
/-- Size of a JSON object. -/
def sizeO : JsonObj → Nat
  | .nil => 1
  | .cons _ v tl => sizeJ v + sizeO tl + 1
end

/-- `parts.map((p) => p.text ?? "").join("")` (also used with `p?.text`):
`null`/`undefined` text becomes `""`, anything else is join-coerced. -/
def partText (p : Json) : String :=
  match jGet p "text" with
  | some .null => ""
  | some v => jsString v
  | none => ""

/-- Join of a parts array with no separator. -/
def partsJoin (ps : List Json) : String :=
  String.join (ps.map partText)

/-! ### Client-side text collector (`collectText`, src/src/hooks/useChat.ts 190-218) -/

/-- The guard `x.delta && typeof x.delta.content === "string"` together with
the string it returns. -/
def clDeltaContent (j : Json) : Option String :=
  match jGet j "delta" with
  | some d => if truthy d then getStrO (jGet d "content") else none
  | none => none

/-- The client's `for (const c of obj.choices)` loop: on the first choice
whose guard fires, return that branch's value (`rec` is the recursive call
used for `c.message.content`); if no guard ever fires, fall through. -/
def clChoiceScan (rec : Json → String) : List Json → Option String
  | [] => none
  | c :: cs =>
    match clDeltaContent c with
    | some s => some s
    | none =>
      match jGetT2 c "message" "content" with
      | some mc => some (rec mc)
      | none =>
        match jGet c "text" with
        | some t => if truthy t then some (jsString t) else clChoiceScan rec cs
        | none => clChoiceScan rec cs

/-- The client object branches after `text`/`delta`/`choices` fail:
`output.content`, `candidates`, `parts`, then the fallback traversal that
concatenates `collectText` over every field value (`rec` is the recursive
call). -/
def clObjRest (rec : Json → String) (o : JsonObj) : String :=
  match jGetT2 (.obj o) "output" "content" with
  | some oc => rec oc
  | none =>
    match lookupO o "candidates" with
    | some (.arr cands) => String.join ((toListA cands).map rec)
    | _ =>
      match lookupO o "parts" with
      | some (.arr ps) => partsJoin (toListA ps)
      | _ => String.join ((fieldsO o).map (fun kv => rec kv.2))

/-- Fuel-indexed client-side `collectText`; the fuel only bounds the recursion
depth and `collectText` below supplies a sufficient amount. -/
def collectTextF : Nat → Json → String
  | 0, _ => ""
  | _+1, .null => ""
  | _+1, .bool b => jsString (.bool b)
  | _+1, .num n => toString n
  | _+1, .str s => s
  | n+1, .arr l => String.join ((toListA l).map (collectTextF n))
  | n+1, .obj o =>
    match getStrO (lookupO o "text") with
    | some s => s
    | none =>
      match clDeltaContent (.obj o) with
      | some s => s
      | none =>
        match lookupO o "choices" with
        | some (.arr cs) =>
          match clChoiceScan (collectTextF n) (toListA cs) with
          | some s => s
          | none => clObjRest (collectTextF n) o
        | _ => clObjRest (collectTextF n) o

/-- Client-side `collectText` (src/src/hooks/useChat.ts, lines 190-218). -/
def collectText (j : Json) : String :=
  collectTextF (sizeJ j) j

/-! ### Server-side text extractor (`extractText`,
src/supabase/functions/chat/index.ts 198-246) -/

/-- `if (c?.text) out += String(c.text)` step of the server choices loop. -/
def svChoiceItemText (c : Json) : String :=
  match jGet c "text" with
  | some t => if truthy t then jsString t else ""
  | none => ""

/-- `else if (c?.message?.content) out += extractText(c.message.content)`. -/
def svChoiceItemTail (rec : Json → String) (c : Json) : String :=
  match jGet2 c "message" "content" with
  | some mc => if truthy mc then rec mc else svChoiceItemText c
  | none => svChoiceItemText c

/-- One iteration of the server loop over `obj.choices`
(`if (c?.delta?.content) out += String(c.delta.content); else if ...`). -/
def svChoiceItem (rec : Json → String) (c : Json) : String :=
  match jGet2 c "delta" "content" with
  | some dc => if truthy dc then jsString dc else svChoiceItemTail rec c
  | none => svChoiceItemTail rec c

/-- The server loop over `obj.candidates`: return on the first candidate with
an array `content.parts` or a truthy `output.content`; otherwise fall
through. -/
def svCandScan (rec : Json → String) : List Json → Option String
  | [] => none
  | cand :: rest =>
    match jGet2 cand "content" "parts" with
    | some (.arr ps) => some (partsJoin (toListA ps))
    | _ =>
      match jGet2 cand "output" "content" with
      | some oc => if truthy oc then some (rec oc) else svCandScan rec rest
      | none => svCandScan rec rest

/-- Server branches after `choices`/`candidates`/`output` fail: the `content`
branch (array or string), then `parts`, then `delta.content`, else `""`.
Note: there is no fallback field traversal on the server side. -/
def svObjTail (o : JsonObj) : String :=
  match lookupO o "parts" with
  | some (.arr ps) => partsJoin (toListA ps)
  | _ => (clDeltaContent (.obj o)).getD ""

/-- Server `output.content` and `content` branches. -/
def svObjRest (rec : Json → String) (o : JsonObj) : String :=
  match jGetT2 (.obj o) "output" "content" with
  | some oc => rec oc
  | none =>
    match lookupO o "content" with
    | some cv =>
      if truthy cv then
        match cv with
        | .arr ps => partsJoin (toListA ps)
        | .str s => s
        | _ => svObjTail o
      else svObjTail o
    | none => svObjTail o

/-- Server branches after the `choices` accumulation loop. -/
def svAfterChoices (rec : Json → String) (o : JsonObj) : String :=
  match lookupO o "candidates" with
  | some (.arr cands) =>
    match svCandScan rec (toListA cands) with
    | some s => s
    | none => svObjRest rec o
  | _ => svObjRest rec o

/-- Fuel-indexed server-side `extractText`. -/
def extractTextF : Nat → Json → String
  | 0, _ => ""
  | _+1, .null => ""
  | _+1, .bool b => jsString (.bool b)
  | _+1, .num n => toString n
  | _+1, .str s => s
  | n+1, .arr l => String.join ((toListA l).map (extractTextF n))
  | n+1, .obj o =>
    match lookupO o "choices" with
    | some (.arr cs) =>
      let out := String.join ((toListA cs).map (svChoiceItem (extractTextF n)))
      if out != "" then out else svAfterChoices (extractTextF n) o
    | _ => svAfterChoices (extractTextF n) o

/-- Server-side `extractText` (src/supabase/functions/chat/index.ts,
lines 198-246). -/
def extractText (j : Json) : String :=
  extractTextF (sizeJ j) j

/-! ### Text sanitizer (`sanitizeText`, src/supabase/functions/chat/index.ts
249-257).  Each regex pass is implemented as a left-to-right scan with the
same leftmost/greedy semantics; a pass's fuel is its input length, which is
sufficient since every step consumes at least one character. -/

/-- Case-insensitive prefix test (JavaScript `i` flag, ASCII). -/
def ciStarts : List Char → List Char → Bool
  | [], _ => true
  | _ :: _, [] => false
  | p :: ps, c :: cs => (p.toLower == c.toLower) && ciStarts ps cs

/-- The class `[^ \n\r]` of `/model[^ \n\r]*/`. -/
def notSpNlCr (c : Char) : Bool :=
  !(c == ' ' || c == '\n' || c == '\r')

/-- `s.replace(/model[^ \n\r]*/gi, "")`. -/
def stripModelF : Nat → List Char → List Char
  | 0, l => l
  | _+1, [] => []
  | n+1, c :: rest =>
    if ciStarts "model".data (c :: rest) then
      stripModelF n (((c :: rest).drop 5).dropWhile notSpNlCr)
    else c :: stripModelF n rest

/-- `s.replace(/model[^ \n\r]*/gi, "")` with sufficient fuel. -/
def stripModel (l : List Char) : List Char := stripModelF l.length l

/-- `s.replace(/TEXT\d+/gi, "")`. -/
def stripTextNumF : Nat → List Char → List Char
  | 0, l => l
  | _+1, [] => []
  | n+1, c :: rest =>
    if ciStarts "text".data (c :: rest) &&
        ((c :: rest).drop 4).head?.any Char.isDigit then
      stripTextNumF n (((c :: rest).drop 4).dropWhile Char.isDigit)
    else c :: stripTextNumF n rest

/-- `s.replace(/TEXT\d+/gi, "")` with sufficient fuel. -/
def stripTextNum (l : List Char) : List Char := stripTextNumF l.length l

/-- JavaScript word character (`\w`, used for `\b`). -/
def isWordChar (c : Char) : Bool := c.isAlphanum || c == '_'

/-- `s.replace(/\bSTOP\b/gi, "")`; the `Bool` carries whether the previous
character was a word character (for the leading `\b`). -/
def stripStopF : Nat → Bool → List Char → List Char
  | 0, _, l => l
  | _+1, _, [] => []
  | n+1, prevW, c :: rest =>
    if !prevW && ciStarts "stop".data (c :: rest) &&
        !((c :: rest).drop 4).head?.any isWordChar then
      stripStopF n true ((c :: rest).drop 4)
    else c :: stripStopF n (isWordChar c) rest

/-- `s.replace(/\bSTOP\b/gi, "")` with sufficient fuel. -/
def stripStop (l : List Char) : List Char := stripStopF l.length false l

/-- The class `[_A-Za-z0-9-]` of the opaque-ID pass. -/
def isTokChar (c : Char) : Bool := c.isAlphanum || c == '_' || c == '-'

/-- `s.replace(/[_A-Za-z0-9-]{16,}/g, "")`. -/
def stripLongF : Nat → List Char → List Char
  | 0, l => l
  | _+1, [] => []
  | n+1, c :: rest =>
    if isTokChar c && 16 ≤ ((c :: rest).takeWhile isTokChar).length then
      stripLongF n ((c :: rest).dropWhile isTokChar)
    else c :: stripLongF n rest

/-- `s.replace(/[_A-Za-z0-9-]{16,}/g, "")` with sufficient fuel. -/
def stripLong (l : List Char) : List Char := stripLongF l.length l

mutual
/-- `s.replace(/\s{2,}/g, " ")`: a maximal run of two or more whitespace
characters becomes a single space; isolated whitespace is kept verbatim. -/
def collapseWS : List Char → List Char
  | [] => []
  | c :: rest =>
    if isWS c then
      match rest with
      | [] => [c]
      | c2 :: _ => if isWS c2 then ' ' :: collapseSkip rest else c :: collapseWS rest
    else c :: collapseWS rest
/-- Skip the remainder of a whitespace run already replaced by `' '`. -/
def collapseSkip : List Char → List Char
  | [] => []
  | c :: rest => if isWS c then collapseSkip rest else c :: collapseWS rest
end

/-- Server-side `sanitizeText` (src/supabase/functions/chat/index.ts,
lines 249-257): the four token-removal passes, whitespace collapsing and a
final trim, with the initial `if (!s) return ""` guard. -/
def sanitizeText (s : String) : String :=
  if s == "" then ""
  else
    String.mk (trimChars (collapseWS (stripLong (stripStop (stripTextNum
      (stripModel s.data))))))

/-! ### JSON parsing (`JSON.parse`) and serialization (`JSON.stringify`).
The parser accepts the JSON grammar restricted to integer numerals (see the
header note); a failed parse models the exception `JSON.parse` throws. -/

/-- Skip JSON insignificant whitespace (the same four ASCII characters). -/
def skipWSJ (l : List Char) : List Char := l.dropWhile isWS

/-- Value of one hexadecimal digit, computed from its character code
(48-57 are the digits, 97-102 and 65-70 the two letter ranges). -/
def hexVal (c : Char) : Option Nat :=
  let n := c.toNat
  if 48 ≤ n && n ≤ 57 then some (n - 48)
  else if 97 ≤ n && n ≤ 102 then some (n - 87)
  else if 65 ≤ n && n ≤ 70 then some (n - 55)
  else none

/-- Parse the body of a JSON string after the opening quote, returning the
decoded characters and the input after the closing quote. -/
def parseStrF : Nat → List Char → Option (List Char × List Char)
  | 0, _ => none
  | _+1, [] => none
  | _+1, '"' :: t => some ([], t)
  | n+1, '\\' :: e :: t =>
    if e == 'u' then
      match t with
      | h1 :: h2 :: h3 :: h4 :: t2 =>
        match hexVal h1, hexVal h2, hexVal h3, hexVal h4 with
        | some a, some b, some c, some d =>
          (parseStrF n t2).map (fun p =>
            (Char.ofNat ((a * 16 + b) * 256 + (c * 16 + d)) :: p.1, p.2))
        | _, _, _, _ => none
      | _ => none
    else
      match
        (if e == '"' then some '"'
         else if e == '\\' then some '\\'
         else if e == '/' then some '/'
         else if e == 'b' then some '\x08'
         else if e == 'f' then some '\x0c'
         else if e == 'n' then some '\n'
         else if e == 'r' then some '\r'
         else if e == 't' then some '\t'
         else none) with
      | some d => (parseStrF n t).map (fun p => (d :: p.1, p.2))
      | none => none
  | n+1, c :: t =>
    if c.toNat < 32 then none
    else (parseStrF n t).map (fun p => (c :: p.1, p.2))

/-- Digits to a natural number. -/
def digitsToNat (ds : List Char) : Nat :=
  ds.foldl (fun a c => a * 10 + (c.toNat - '0'.toNat)) 0

/-- A numeral continuing with `.`/`e`/`E` is outside the integer-only model. -/
def numTailBad : List Char → Bool
  | c :: _ => c == '.' || c == 'e' || c == 'E'
  | [] => false

mutual
/-- Parse one JSON value (after skipping leading whitespace). -/
def parseValF : Nat → List Char → Option (Json × List Char)
  | 0, _ => none
  | n+1, l =>
    match skipWSJ l with
    | '\x7b' :: t =>
      (match skipWSJ t with
       | '\x7d' :: t2 => some (.obj .nil, t2)
       | t2 => (parseObjF n t2).map (fun p => (.obj p.1, p.2)))
    | '[' :: t =>
      (match skipWSJ t with
       | ']' :: t2 => some (.arr .nil, t2)
       | t2 => (parseArrF n t2).map (fun p => (.arr p.1, p.2)))
    | '"' :: t => (parseStrF (t.length + 1) t).map (fun p => (.str (String.mk p.1), p.2))
    | 't' :: 'r' :: 'u' :: 'e' :: t => some (.bool true, t)
    | 'f' :: 'a' :: 'l' :: 's' :: 'e' :: t => some (.bool false, t)
    | 'n' :: 'u' :: 'l' :: 'l' :: t => some (.null, t)
    | '-' :: t =>
      (match t.takeWhile Char.isDigit with
       | [] => none
       | ds =>
         let r := t.dropWhile Char.isDigit
         if numTailBad r then none else some (.num (-(digitsToNat ds : Int)), r))
    | c :: t =>
      if c.isDigit then
        let ds := (c :: t).takeWhile Char.isDigit
        let r := (c :: t).dropWhile Char.isDigit
        if numTailBad r then none else some (.num (digitsToNat ds : Int), r)
      else none
    | [] => none
/-- Parse the members of a JSON object, positioned at a key. -/
def parseObjF : Nat → List Char → Option (JsonObj × List Char)
  | 0, _ => none
  | n+1, l =>
    match l with
    | '"' :: t =>
      (match parseStrF (t.length + 1) t with
       | some (kcs, r1) =>
         (match skipWSJ r1 with
          | ':' :: r2 =>
            (match parseValF n r2 with
             | some (v, r3) =>
               (match skipWSJ r3 with
                | ',' :: r4 =>
                  (parseObjF n (skipWSJ r4)).map (fun p =>
                    (.cons (String.mk kcs) v p.1, p.2))
                | '\x7d' :: r4 => some (.cons (String.mk kcs) v .nil, r4)
                | _ => none)
             | none => none)
          | _ => none)
       | none => none)
    | _ => none
/-- Parse the elements of a JSON array, positioned at a value. -/
def parseArrF : Nat → List Char → Option (JsonArr × List Char)
  | 0, _ => none
  | n+1, l =>
    match parseValF n l with
    | some (v, r1) =>
      (match skipWSJ r1 with
       | ',' :: r2 => (parseArrF n r2).map (fun p => (.cons v p.1, p.2))
       | ']' :: r2 => some (.cons v .nil, r2)
       | _ => none)
    | none => none
end

/-- `JSON.parse`: parse one value, allow trailing whitespace, reject junk;
`none` models the thrown `SyntaxError`. -/
def parseJson (l : List Char) : Option Json :=
  match parseValF (l.length + 1) l with
  | some (j, r) => if skipWSJ r == [] then some j else none
  | none => none

/-- Lower-case hexadecimal digit character for a value below sixteen,
by character code (48 is the zero digit, 87 + d gives the letters). -/
def lowHexDigit (d : Nat) : Char :=
  Char.ofNat (if d ≤ 9 then 48 + d else 87 + d)

/-- `JSON.stringify` escaping of one character. -/
def escChar (c : Char) : List Char :=
  if c == '"' then ['\\', '"']
  else if c == '\\' then ['\\', '\\']
  else if c == '\x08' then ['\\', 'b']
  else if c == '\x0c' then ['\\', 'f']
  else if c == '\n' then ['\\', 'n']
  else if c == '\r' then ['\\', 'r']
  else if c == '\t' then ['\\', 't']
  else if c.toNat < 32 then
    '\\' :: 'u' :: '0' :: '0' :: lowHexDigit (c.toNat / 16) :: [lowHexDigit (c.toNat % 16)]
  else [c]

/-- `JSON.stringify` of a string. -/
def escStr (s : String) : String :=
  "\"" ++ String.mk ((s.data.map escChar).flatten) ++ "\""

mutual
/-- `JSON.stringify` (no indentation, insertion-order keys). -/
def jsonStringify : Json → String
  | .null => "null"
  | .bool true => "true"
  | .bool false => "false"
  | .num n => toString n
  | .str s => escStr s
  | .arr a => "[" ++ stringifyA a ++ "]"
  | .obj o => "\x7b" ++ stringifyO o ++ "\x7d"
/-- Elements of an array, comma separated. -/
def stringifyA : JsonArr → String
  | .nil => ""
  | .cons x .nil => jsonStringify x
  | .cons x tl => jsonStringify x ++ "," ++ stringifyA tl
/-- Members of an object, comma separated. -/
def stringifyO : JsonObj → String
  | .nil => ""
  | .cons k v .nil => escStr k ++ ":" ++ jsonStringify v
  | .cons k v tl => escStr k ++ ":" ++ jsonStringify v ++ "," ++ stringifyO tl
end

/-! ### Client-side SSE event-stream reader (src/src/hooks/useChat.ts
220-286): blank-line splitting, `data:`-line collection, per-event
extraction, chunk loop and final flush. -/

/-- Consume one `\r?\n` (greedy: a leading `'\r'` is taken only with a
following `'\n'`). -/
def eatNl : List Char → Option (List Char)
  | '\r' :: '\n' :: t => some t
  | '\n' :: t => some t
  | _ => none

/-- Match the blank-line separator `/\r?\n\r?\n/` at the head of the input,
returning the input after the separator. -/
def matchSepAt (l : List Char) : Option (List Char) :=
  (eatNl l).bind eatNl

/-- Prepend a character to the first fragment of a split result. -/
def consHead (c : Char) : List (List Char) → List (List Char)
  | [] => [[c]]
  | f :: fs => (c :: f) :: fs

/-- `buffer.split(/\r?\n\r?\n/)`: leftmost separator matches, split
fragments in order, one trailing fragment after the last separator. -/
def splitEvF : Nat → List Char → List (List Char)
  | 0, l => [l]
  | n+1, l =>
    match matchSepAt l with
    | some post => [] :: splitEvF n post
    | none =>
      match l with
      | [] => [[]]
      | c :: rest => consHead c (splitEvF n rest)

/-- `split(/\r?\n\r?\n/)` with sufficient fuel. -/
def splitEv (l : List Char) : List (List Char) := splitEvF l.length l

/-- `ev.split(/\r?\n/)`. -/
def splitNl : List Char → List (List Char)
  | [] => [[]]
  | '\r' :: '\n' :: t => [] :: splitNl t
  | '\n' :: t => [] :: splitNl t
  | c :: t => consHead c (splitNl t)

/-- `l.startsWith("data:")`. -/
def startsData (l : List Char) : Bool :=
  "data:".data.isPrefixOf l

/-- `l.replace(/^data:\s?/, "")` for a line known to start with `data:`:
drop the tag and at most one following whitespace character. -/
def stripDataTag (l : List Char) : List Char :=
  match l.drop 5 with
  | [] => []
  | c :: t => if isWS c then t else c :: t

/-- The `data:` lines of one event: split into lines, trim each, keep those
starting with `data:`, strip the tag. -/
def eventDataLines (ev : List Char) : List (List Char) :=
  (((splitNl ev).map trimChars).filter startsData).map stripDataTag

/-- `dataLines.join("\n").trim()`. -/
def eventDataStr (ev : List Char) : List Char :=
  trimChars (List.intercalate ['\n'] (eventDataLines ev))

/-- Process one complete SSE event, returning the delta it yields, if any
(src/src/hooks/useChat.ts, lines 231-263): skip blank events, events with
no `data:` line, empty or `[DONE]` payloads; JSON-parse the payload and
collect+trim its text, falling back to the raw payload; skip empty
extractions. -/
def handleEvent (ev : List Char) : Option (List Char) :=
  if trimChars ev == [] then none
  else if eventDataLines ev == [] then none
  else
    let dataStr := eventDataStr ev
    if dataStr == [] || dataStr == "[DONE]".data then none
    else
      let ext :=
        match parseJson dataStr with
        | some j => trimChars (collectText j).data
        | none => dataStr
      if ext == [] then none else some ext

/-- One iteration of the chunk loop: append the chunk to the buffer, split
on blank lines, retain the final fragment as the new buffer, and process
every complete event in order. -/
def stepChunk : (List (List Char) × List Char) → List Char → (List (List Char) × List Char)
  | (ds, buf), c =>
    let frs := splitEv (buf ++ c)
    (ds ++ frs.dropLast.filterMap handleEvent, frs.getLastD [])

/-- Run the chunk loop over a whole stream of chunks, starting from an empty
delta list and an empty buffer. -/
def processChunks (chunks : List String) : List (List Char) × List Char :=
  (chunks.map String.data).foldl stepChunk ([], [])

/-- The final flush (src/src/hooks/useChat.ts, lines 266-286): if the
trimmed leftover buffer is non-empty and not `[DONE]`, JSON-parse the whole
trimmed buffer (note: without `data:`-line collection), falling back to the
raw text, and yield the result if non-empty. -/
def flushDelta (buf : List Char) : Option (List Char) :=
  if trimChars buf == [] then none
  else
    let dataStr := trimChars buf
    if dataStr == "[DONE]".data then none
    else
      let ext :=
        match parseJson dataStr with
        | some j => trimChars (collectText j).data
        | none => dataStr
      if ext == [] then none else some ext

/-- All deltas one round's stream yields, in order: the chunk-loop deltas
followed by the flush delta, if any. -/
def roundDeltas (chunks : List String) : List String :=
  ((processChunks chunks).1 ++ ((processChunks chunks).2 |> flushDelta).toList).map String.mk

/-! ### Transcript model (`Message`, `setMessages` updates;
src/src/components/ChatInterface.tsx and src/src/hooks/useChat.ts). -/

/-- One chat message (the `Message` interface; `Date` modelled as `Nat`). -/
structure ChatMsg where
  id : String
  role : String
  content : String
  timestamp : Nat
  imageUrl : Option String := none
  csvData : Option String := none
  csvFileName : Option String := none
  userName : Option String := none
deriving DecidableEq

/-- One `setMessages(prev => prev.map(msg => msg.id === aid ?
{ ...msg, content: newContent } : msg))` update. -/
def applyDelta (msgs : List ChatMsg) (aid : String) (newContent : String) : List ChatMsg :=
  msgs.map (fun m => if m.id == aid then { m with content := newContent } else m)

/-- The per-delta loop body applied over a list of yielded deltas: starting
from accumulated content `acc` and transcript `msgs`, append each delta to
the accumulator and publish one updated transcript per delta.  Returns the
final accumulated content and the list of published transcripts. -/
def deltaSteps (aid : String) : List String → String → List ChatMsg → String × List (List ChatMsg)
  | [], acc, _ => (acc, [])
  | d :: ds, acc, msgs =>
    let acc2 := acc ++ d
    let msgs2 := applyDelta msgs aid acc2
    ((deltaSteps aid ds acc2 msgs2).1, msgs2 :: (deltaSteps aid ds acc2 msgs2).2)

/-! ### Server-side reframer (`sseStream` and the upstream failure branches;
src/supabase/functions/chat/index.ts 173-192, 260-285, 346-352). -/

/-- The canonical wire encoding of one delta:
`data: {"choices":[{"delta":{"content": p}}]}\n\n`. -/
def deltaEventStr (p : String) : String :=
  "data: " ++ jsonStringify (.obj (.cons "choices" (.arr (.cons (.obj (.cons "delta"
    (.obj (.cons "content" (.str p) .nil)) .nil)) .nil)) .nil)) ++ "\n\n"

/-- The terminal sentinel event `data: [DONE]\n\n`. -/
def doneEventStr : String := "data: [DONE]\n\n"

/-- Whole-document mode piece collection: for an array body one piece per
element, otherwise one piece for the single value; each piece is the
extracted, trimmed text, kept only if non-empty, then sanitized. -/
def docPieces (j : Json) : List String :=
  match j with
  | .arr items =>
    (toListA items).filterMap (fun item =>
      let t := trimStr (extractText item)
      if t != "" then some (sanitizeText t) else none)
  | _ =>
    let t := trimStr (extractText j)
    if t != "" then [sanitizeText t] else []

/-- Whole-document mode (src/supabase/functions/chat/index.ts, lines
263-285): one CanonicalDelta event per piece, then the `[DONE]` sentinel,
then the stream closes. -/
def wholeDocEvents (j : Json) : List String :=
  (docPieces j).map deltaEventStr ++ [doneEventStr]

/-- Outcome of the upstream fetch handling: either a structured JSON error
response (no stream is opened) or entry into the streaming modes. -/
inductive UpstreamOutcome where
  | errorResp (status : Nat) (body : String)
  | streamResp
deriving DecidableEq

/-- The JSON body `{"error": msg}` serialized as the handler sends it. -/
def errorBody (msg : String) : String :=
  jsonStringify (.obj (.cons "error" (.str msg) .nil))

/-- Upstream status handling (src/supabase/functions/chat/index.ts, lines
173-192 and the catch-all at 346-352): `response.ok` (status 200-299) opens
the stream; 429 and 402 return their literal messages; any other
non-success status throws `AI gateway error: <status>`, which the outer
catch turns into a 500 response echoing the upstream status. -/
def respondUpstream (status : Nat) : UpstreamOutcome :=
  if 200 ≤ status && status ≤ 299 then .streamResp
  else if status == 429 then
    .errorResp 429 (errorBody "Rate limit exceeded. Please try again later.")
  else if status == 402 then
    .errorResp 402 (errorBody "Payment required. Please add credits to your workspace.")
  else
    .errorResp 500 (errorBody ("AI gateway error: " ++ toString status))

/-! ### `sendMessage` effect order (src/src/hooks/useChat.ts 57-313),
modelled as the sequence of observable effects one call performs. -/

/-- Observable effects of one `sendMessage` call. -/
inductive Effect where
  | setLoading (b : Bool)
  | readAttachment
  | fetchCsvUrl
  | toastError (title : String)
  | appendMessage (role : String)
  | persistMessage (role : String)
  | callChatEndpoint
  | streamAndApplyDeltas
deriving DecidableEq

/-- Environment of one `sendMessage` call. -/
structure SendInput where
  hasImageFile : Bool
  hasCsvFile : Bool
  csvUrl : Option String
  csvFetchOk : Bool
  hasConversation : Bool
  chatRespOk : Bool
  assistantContentNonempty : Bool

/-- The effects from user-message creation onward (reached only when
attachment resolution succeeded). -/
def afterAttach (inp : SendInput) : List Effect :=
  [.appendMessage "user"] ++
  (if inp.hasConversation then [.persistMessage "user"] else []) ++
  [.callChatEndpoint] ++
  (if inp.chatRespOk then
    [.appendMessage "assistant", .streamAndApplyDeltas] ++
    (if inp.hasConversation && inp.assistantContentNonempty then
      [.persistMessage "assistant"] else []) ++
    [.setLoading false]
  else [.toastError "Error", .setLoading false])

/-- Effect order of one `sendMessage` call: set loading, resolve
attachments (a failed tabular-URL fetch reports the failure, clears the
loading flag and returns immediately), then append/persist/stream. -/
def sendMessageEffects (inp : SendInput) : List Effect :=
  [.setLoading true] ++
  (if inp.hasImageFile then [.readAttachment] else []) ++
  (if inp.hasCsvFile then [.readAttachment] ++ afterAttach inp
   else
     match inp.csvUrl with
     | some _ =>
       if inp.csvFetchOk then [.fetchCsvUrl] ++ afterAttach inp
       else [.fetchCsvUrl, .toastError "Failed to load CSV", .setLoading false]
     | none => afterAttach inp)

/-- Concatenation of a list of strings (no separator). -/
def strJoin : List String → String
  | [] => ""
  | s :: ss => s ++ strJoin ss

/-- No two adjacent whitespace characters (the shape `collapseWS` output
has). -/
def noAdjWS : List Char → Bool
  | [] => true
  | [_] => true
  | a :: b :: t => !(isWS a && isWS b) && noAdjWS (b :: t)

/-- The canonical SSE stream of the two-chunk reassembly example: two
deltas `Hel` and `lo` followed by the `[DONE]` sentinel. -/
def canonicalHelloStream : String :=
  "data: \x7b\"choices\":[\x7b\"delta\":\x7b\"content\":\"Hel\"\x7d\x7d]\x7d\n\ndata: \x7b\"choices\":[\x7b\"delta\":\x7b\"content\":\"lo\"\x7d\x7d]\x7d\n\ndata: [DONE]\n\n"

/-! ## Theorems -/

/-! ### Generic string helpers -/

theorem strAppendEmpty (s : String) : s ++ "" = s := by
  apply String.ext
  simp [String.data_append]

theorem strEmptyAppend (s : String) : "" ++ s = s := by
  apply String.ext
  simp [String.data_append]

theorem strAppendAssoc (a b c : String) : a ++ b ++ c = a ++ (b ++ c) := by
  apply String.ext
  simp [String.data_append]

/-! ### Transcript update lemmas (claims C5 and C10) -/

theorem applyDelta_twice (msgs : List ChatMsg) (aid c1 c2 : String) :
    applyDelta (applyDelta msgs aid c1) aid c2 = applyDelta msgs aid c2 := by
  unfold applyDelta
  rw [List.map_map]
  apply List.map_congr_left
  intro m _
  cases h : m.id == aid <;> simp [Function.comp, h]

theorem applyDelta_content_of_id (msgs : List ChatMsg) (aid c : String) :
    ∀ m2 ∈ applyDelta msgs aid c, m2.id = aid → m2.content = c := by
  intro m2 hm hid
  unfold applyDelta at hm
  rw [List.mem_map] at hm
  obtain ⟨m, hm, he⟩ := hm
  cases h : m.id == aid <;> rw [h] at he <;> simp at he
  · subst he
    rw [beq_eq_false_iff_ne] at h
    exact absurd hid h
  · rw [← he]

theorem deltaSteps_spec (aid : String) :
    ∀ (ds : List String) (acc : String) (msgs : List ChatMsg),
      (deltaSteps aid ds acc msgs).1 = acc ++ strJoin ds ∧
      (deltaSteps aid ds acc msgs).2.length = ds.length ∧
      ∀ k pub, (deltaSteps aid ds acc msgs).2[k]? = some pub →
        pub = applyDelta msgs aid (acc ++ strJoin (ds.take (k + 1))) := by
  intro ds
  induction ds with
  | nil =>
    intro acc msgs
    refine ⟨by simp [deltaSteps, strJoin, strAppendEmpty], by simp [deltaSteps], ?_⟩
    intro k pub h
    simp [deltaSteps] at h
  | cons d ds ih =>
    intro acc msgs
    obtain ⟨ih1, ih2, ih3⟩ := ih (acc ++ d) (applyDelta msgs aid (acc ++ d))
    refine ⟨?_, ?_, ?_⟩
    · rw [deltaSteps, ih1, strJoin, ← strAppendAssoc]
    · simp [deltaSteps, ih2]
    · intro k pub h
      match k with
      | 0 =>
        simp [deltaSteps] at h
        rw [← h]
        simp [strJoin, strAppendEmpty]
      | k + 1 =>
        rw [deltaSteps] at h
        simp only [List.getElem?_cons_succ] at h
        have := ih3 k pub h
        rw [this, applyDelta_twice]
        simp [strJoin, strAppendAssoc]

/-- Claim C5: at every point during one round's streaming, the in-flight
assistant message's content equals the concatenation, in arrival order, of
all non-empty deltas yielded so far, and each yielded delta triggers exactly
one observable transcript update (one published transcript per delta; no
delta lost, duplicated, batched or reordered). -/
theorem C5_transcript_invariant (aid : String) (ds : List String) (msgs0 : List ChatMsg) :
    (deltaSteps aid ds "" msgs0).1 = strJoin ds ∧
    (deltaSteps aid ds "" msgs0).2.length = ds.length ∧
    ∀ k pub, (deltaSteps aid ds "" msgs0).2[k]? = some pub →
      pub = applyDelta msgs0 aid (strJoin (ds.take (k + 1))) ∧
      ∀ m2 ∈ pub, m2.id = aid → m2.content = strJoin (ds.take (k + 1)) := by
  obtain ⟨h1, h2, h3⟩ := deltaSteps_spec aid ds "" msgs0
  refine ⟨by rw [h1, strEmptyAppend], h2, ?_⟩
  intro k pub h
  have hp := h3 k pub h
  rw [strEmptyAppend] at hp
  exact ⟨hp, by rw [hp]; exact applyDelta_content_of_id msgs0 aid _⟩

/-- Witness for C5 at a concrete stream of two deltas. -/
theorem C5_transcript_invariant_witness :
    (deltaSteps "a1" ["Hel", "lo"] ""
      [⟨"a1", "assistant", "", 1, none, none, none, none⟩]).1 = strJoin ["Hel", "lo"] ∧
    (deltaSteps "a1" ["Hel", "lo"] ""
      [⟨"a1", "assistant", "", 1, none, none, none, none⟩]).2.length = 2 ∧
    ([⟨"a1", "assistant", "Hello", 1, none, none, none, none⟩] : List ChatMsg) =
      applyDelta [⟨"a1", "assistant", "", 1, none, none, none, none⟩] "a1"
        (strJoin (["Hel", "lo"].take 2)) := by
  obtain ⟨h1, h2, h3⟩ :=
    C5_transcript_invariant "a1" ["Hel", "lo"]
      [⟨"a1", "assistant", "", 1, none, none, none, none⟩]
  exact ⟨h1, h2, (h3 1 [⟨"a1", "assistant", "Hello", 1, none, none, none, none⟩]
    (by decide)).1⟩

/-- Claim C10: applying one delta to the transcript changes only the
`content` of messages whose id equals the in-flight assistant message's id:
length and order are unchanged, every other message is unchanged, and the
updated message's id, role, timestamp and attachment fields are unchanged. -/
theorem C10_delta_update_frame (msgs : List ChatMsg) (aid c : String) :
    (applyDelta msgs aid c).length = msgs.length ∧
    ∀ (i : Nat) (m m2 : ChatMsg), msgs[i]? = some m → (applyDelta msgs aid c)[i]? = some m2 →
      m2.id = m.id ∧ m2.role = m.role ∧ m2.timestamp = m.timestamp ∧
      m2.imageUrl = m.imageUrl ∧ m2.csvData = m.csvData ∧
      m2.csvFileName = m.csvFileName ∧ m2.userName = m.userName ∧
      (m.id ≠ aid → m2 = m) ∧ (m.id = aid → m2.content = c) := by
  refine ⟨by simp [applyDelta], ?_⟩
  intro i m m2 h1 h2
  unfold applyDelta at h2
  rw [List.getElem?_map, h1] at h2
  simp at h2
  by_cases hid : m.id = aid
  · rw [if_pos hid] at h2
    subst h2
    simp [hid]
  · rw [if_neg hid] at h2
    subst h2
    simp [hid]

/-- Witness for C10 at a concrete two-message transcript. -/
theorem C10_delta_update_frame_witness :
    (applyDelta [⟨"u1", "user", "Hi", 0, none, none, none, none⟩,
      ⟨"a1", "assistant", "", 1, none, none, none, none⟩] "a1" "Hel").length = 2 ∧
    ((⟨"a1", "assistant", "Hel", 1, none, none, none, none⟩ : ChatMsg).id =
      (⟨"a1", "assistant", "", 1, none, none, none, none⟩ : ChatMsg).id ∧
     (⟨"a1", "assistant", "Hel", 1, none, none, none, none⟩ : ChatMsg).role =
      (⟨"a1", "assistant", "", 1, none, none, none, none⟩ : ChatMsg).role ∧
     (⟨"a1", "assistant", "Hel", 1, none, none, none, none⟩ : ChatMsg).timestamp =
      (⟨"a1", "assistant", "", 1, none, none, none, none⟩ : ChatMsg).timestamp ∧
     (⟨"a1", "assistant", "Hel", 1, none, none, none, none⟩ : ChatMsg).imageUrl =
      (⟨"a1", "assistant", "", 1, none, none, none, none⟩ : ChatMsg).imageUrl ∧
     (⟨"a1", "assistant", "Hel", 1, none, none, none, none⟩ : ChatMsg).csvData =
      (⟨"a1", "assistant", "", 1, none, none, none, none⟩ : ChatMsg).csvData ∧
     (⟨"a1", "assistant", "Hel", 1, none, none, none, none⟩ : ChatMsg).csvFileName =
      (⟨"a1", "assistant", "", 1, none, none, none, none⟩ : ChatMsg).csvFileName ∧
     (⟨"a1", "assistant", "Hel", 1, none, none, none, none⟩ : ChatMsg).userName =
      (⟨"a1", "assistant", "", 1, none, none, none, none⟩ : ChatMsg).userName ∧
     ((⟨"a1", "assistant", "", 1, none, none, none, none⟩ : ChatMsg).id ≠ "a1" →
      (⟨"a1", "assistant", "Hel", 1, none, none, none, none⟩ : ChatMsg) =
        ⟨"a1", "assistant", "", 1, none, none, none, none⟩) ∧
     ((⟨"a1", "assistant", "", 1, none, none, none, none⟩ : ChatMsg).id = "a1" →
      (⟨"a1", "assistant", "Hel", 1, none, none, none, none⟩ : ChatMsg).content = "Hel")) := by
  obtain ⟨h1, h2⟩ :=
    C10_delta_update_frame [⟨"u1", "user", "Hi", 0, none, none, none, none⟩,
      ⟨"a1", "assistant", "", 1, none, none, none, none⟩] "a1" "Hel"
  exact ⟨h1, h2 1 ⟨"a1", "assistant", "", 1, none, none, none, none⟩
    ⟨"a1", "assistant", "Hel", 1, none, none, none, none⟩ (by decide) (by decide)⟩

/-! ### Upstream failure handling (claim C6) -/

/-- Claim C6: whenever the upstream provider responds with a non-success
HTTP status, the server does not open either streaming mode and returns a
structured JSON error body: the literal rate-limit message for 429, the
literal payment-required message for 402, and otherwise a generic 500
response whose message echoes the upstream status. -/
theorem C6_upstream_error_mapping (status : Nat) (h : ¬(200 ≤ status ∧ status ≤ 299)) :
    respondUpstream status ≠ UpstreamOutcome.streamResp ∧
    (status = 429 → respondUpstream status =
      .errorResp 429 (errorBody "Rate limit exceeded. Please try again later.")) ∧
    (status = 402 → respondUpstream status =
      .errorResp 402 (errorBody "Payment required. Please add credits to your workspace.")) ∧
    (status ≠ 429 → status ≠ 402 → respondUpstream status =
      .errorResp 500 (errorBody ("AI gateway error: " ++ toString status))) := by
  have hb : (200 ≤ status && status ≤ 299) = false := by
    cases hb : (200 ≤ status && status ≤ 299) with
    | false => rfl
    | true =>
      rw [Bool.and_eq_true, decide_eq_true_eq, decide_eq_true_eq] at hb
      exact absurd hb h
  refine ⟨?_, ?_, ?_, ?_⟩
  · intro hc
    by_cases h429 : status = 429
    · rw [respondUpstream, hb] at hc
      simp [h429] at hc
    · by_cases h402 : status = 402
      · rw [respondUpstream, hb] at hc
        simp [h429, h402] at hc
      · rw [respondUpstream, hb] at hc
        simp [h429, h402] at hc
  · intro h429
    subst h429
    decide
  · intro h402
    subst h402
    decide
  · intro h429 h402
    rw [respondUpstream, hb]
    simp [h429, h402]

/-- Witness for C6 at the non-success status 503. -/
theorem C6_upstream_error_mapping_witness :
    ¬(200 ≤ 503 ∧ 503 ≤ 299) ∧
    respondUpstream 503 ≠ UpstreamOutcome.streamResp ∧
    respondUpstream 503 =
      .errorResp 500 (errorBody ("AI gateway error: " ++ toString 503)) := by
  have h := C6_upstream_error_mapping 503 (by omega)
  exact ⟨by omega, h.1, h.2.2.2 (by decide) (by decide)⟩

/-! ### Aborted round on tabular-URL fetch failure (claim C9) -/

/-- Claim C9: when a tabular URL is supplied and fetching it fails, the
round is aborted before any call to the chat endpoint: the failure is
reported, no user and no assistant message is appended (and nothing is
persisted or streamed), and the session returns to its non-loading state. -/
theorem C9_csv_url_failure (inp : SendInput) (hc : inp.hasCsvFile = false)
    (hu : inp.csvUrl.isSome) (hf : inp.csvFetchOk = false) :
    sendMessageEffects inp =
      [.setLoading true] ++ (if inp.hasImageFile then [.readAttachment] else []) ++
      [.fetchCsvUrl, .toastError "Failed to load CSV", .setLoading false] ∧
    (∀ r, Effect.appendMessage r ∉ sendMessageEffects inp) ∧
    (∀ r, Effect.persistMessage r ∉ sendMessageEffects inp) ∧
    Effect.callChatEndpoint ∉ sendMessageEffects inp ∧
    Effect.streamAndApplyDeltas ∉ sendMessageEffects inp ∧
    (sendMessageEffects inp).getLast? = some (.setLoading false) := by
  obtain ⟨u, hu'⟩ := Option.isSome_iff_exists.mp hu
  have he : sendMessageEffects inp =
      [.setLoading true] ++ (if inp.hasImageFile then [.readAttachment] else []) ++
      [.fetchCsvUrl, .toastError "Failed to load CSV", .setLoading false] := by
    rw [sendMessageEffects, hc, hu', hf]
    simp
  refine ⟨he, ?_, ?_, ?_, ?_, ?_⟩ <;> rw [he] <;>
    cases him : inp.hasImageFile <;> simp [him]

/-- Witness for C9 at a concrete failed tabular-URL round. -/
theorem C9_csv_url_failure_witness :
    sendMessageEffects ⟨false, false, some "http://x/d.csv", false, false, false, false⟩ =
      [.setLoading true] ++
      (if (⟨false, false, some "http://x/d.csv", false, false, false,
        false⟩ : SendInput).hasImageFile then [.readAttachment] else []) ++
      [.fetchCsvUrl, .toastError "Failed to load CSV", .setLoading false] ∧
    (∀ r, Effect.appendMessage r ∉
      sendMessageEffects ⟨false, false, some "http://x/d.csv", false, false, false, false⟩) ∧
    (∀ r, Effect.persistMessage r ∉
      sendMessageEffects ⟨false, false, some "http://x/d.csv", false, false, false, false⟩) ∧
    Effect.callChatEndpoint ∉
      sendMessageEffects ⟨false, false, some "http://x/d.csv", false, false, false, false⟩ ∧
    Effect.streamAndApplyDeltas ∉
      sendMessageEffects ⟨false, false, some "http://x/d.csv", false, false, false, false⟩ ∧
    (sendMessageEffects
      ⟨false, false, some "http://x/d.csv", false, false, false, false⟩).getLast? =
        some (.setLoading false) :=
  C9_csv_url_failure ⟨false, false, some "http://x/d.csv", false, false, false, false⟩
    rfl rfl rfl

/-! ### `[DONE]` handling (claim C4) -/

/-- Counterexample to claim C4 as stated: the reader does not stop at a
`[DONE]` event.  Fed a chunk containing only `[DONE]` and then a further
chunk carrying the delta `X`, it still yields `X`. -/
theorem C4_counterexample :
    roundDeltas ["data: [DONE]\n\n",
      "data: \x7b\"choices\":[\x7b\"delta\":\x7b\"content\":\"X\"\x7d\x7d]\x7d\n\n"] = ["X"] ∧
    (["X"] : List String) ≠ [] := by decide

/-- Claim C4 (amended): an event whose joined `data:` payload is literally
`[DONE]` yields no delta (it is skipped); the reader does not stop there but
continues processing subsequent events until the source signals
end-of-stream. -/
theorem C4_done_event_skipped (ev : List Char)
    (h : eventDataStr ev = "[DONE]".data) : handleEvent ev = none := by
  unfold handleEvent
  split
  · rfl
  · split
    · rfl
    · simp [h]

/-- Witness for the amended C4 at the literal `[DONE]` event. -/
theorem C4_done_event_skipped_witness :
    eventDataStr "data: [DONE]".data = "[DONE]".data ∧
    handleEvent "data: [DONE]".data = none :=
  ⟨by decide, C4_done_event_skipped _ (by decide)⟩

/-! ### Flush-on-close (claim C3) -/

/-- Counterexample to claim C3 as stated: the final flush does not use the
per-event extraction path.  For a leftover fragment that is a `data:`-tagged
delta event (no trailing separator), the per-event path would yield `hi`,
but the flush JSON-parses the raw fragment (which fails because of the
`data:` tag) and yields the whole raw fragment instead. -/
theorem C3_counterexample :
    handleEvent "data: \x7b\"choices\":[\x7b\"delta\":\x7b\"content\":\"hi\"\x7d\x7d]\x7d".data =
      some "hi".data ∧
    roundDeltas ["data: \x7b\"choices\":[\x7b\"delta\":\x7b\"content\":\"hi\"\x7d\x7d]\x7d"] =
      ["data: \x7b\"choices\":[\x7b\"delta\":\x7b\"content\":\"hi\"\x7d\x7d]\x7d"] ∧
    roundDeltas ["data: \x7b\"choices\":[\x7b\"delta\":\x7b\"content\":\"hi\"\x7d\x7d]\x7d"] ≠
      ["hi"] := by decide

/-- Claim C3 (amended): when the source completes while the buffer holds a
fragment whose trimmed text is non-empty and not `[DONE]`, the round yields,
after the chunk-loop deltas, exactly one extra delta obtained by
JSON-parsing the whole trimmed fragment (with no `data:`-line collection)
and collecting+trimming its text on success, falling back to the raw
trimmed fragment on parse failure — except that an empty extraction yields
nothing. -/
theorem C3_flush_on_close (chunks : List String)
    (h1 : trimChars (processChunks chunks).2 ≠ [])
    (h2 : trimChars (processChunks chunks).2 ≠ "[DONE]".data) :
    roundDeltas chunks =
      ((processChunks chunks).1).map String.mk ++
      (match parseJson (trimChars (processChunks chunks).2) with
       | some j =>
         if trimChars (collectText j).data = [] then []
         else [String.mk (trimChars (collectText j).data)]
       | none => [String.mk (trimChars (processChunks chunks).2)]) := by
  unfold roundDeltas flushDelta
  rw [List.map_append]
  have hb1 : (trimChars (processChunks chunks).2 == []) = false :=
    beq_eq_false_iff_ne.mpr h1
  have hb2 : (trimChars (processChunks chunks).2 == "[DONE]".data) = false :=
    beq_eq_false_iff_ne.mpr h2
  rw [hb1]
  simp only [Bool.false_eq_true, if_false, hb2]
  cases hp : parseJson (trimChars (processChunks chunks).2) with
  | some j =>
    by_cases hx : trimChars (collectText j).data = []
    · simp [hx]
    · simp [hx, beq_eq_false_iff_ne.mpr hx]
  | none =>
    simp [hb1]

/-- Witness for the amended C3: a fragment that is not JSON is flushed as
raw text. -/
theorem C3_flush_on_close_witness :
    trimChars (processChunks ["hello"]).2 ≠ [] ∧
    trimChars (processChunks ["hello"]).2 ≠ "[DONE]".data ∧
    roundDeltas ["hello"] =
      ((processChunks ["hello"]).1).map String.mk ++
      (match parseJson (trimChars (processChunks ["hello"]).2) with
       | some j =>
         if trimChars (collectText j).data = [] then []
         else [String.mk (trimChars (collectText j).data)]
       | none => [String.mk (trimChars (processChunks ["hello"]).2)]) :=
  ⟨by decide, by decide, C3_flush_on_close ["hello"] (by decide) (by decide)⟩

/-! ### Extractor fallback (claim C2) -/

/-- Counterexample to claim C2 as stated: for the unrecognized object
`{"foo":"bar"}` the client-side collector returns the concatenated leaf
text `bar`, but the server-side extractor returns the empty string — the
fallback field traversal exists only on the client side. -/
theorem C2_counterexample :
    extractText (.obj (.cons "foo" (.str "bar") .nil)) = "" ∧
    collectText (.obj (.cons "foo" (.str "bar") .nil)) = "bar" ∧
    ("" : String) ≠ "bar" := by decide

/-! ### Whole-document mode (claim C7) -/

/-- Claim C7: in whole-document mode, a fully buffered non-array provider
response whose extracted, trimmed text is `Paris is the capital of France.`
produces exactly one CanonicalDelta event carrying that exact text, followed
by the `[DONE]` sentinel, and the stream closes. -/
theorem C7_whole_document (j : Json) (harr : ∀ a, j ≠ Json.arr a)
    (hx : trimStr (extractText j) = "Paris is the capital of France.") :
    wholeDocEvents j =
      ["data: \x7b\"choices\":[\x7b\"delta\":\x7b\"content\":\"Paris is the capital of France.\"\x7d\x7d]\x7d\n\n",
       "data: [DONE]\n\n"] := by
  have hp : docPieces j = ["Paris is the capital of France."] := by
    cases j with
    | arr a => exact absurd rfl (harr a)
    | null => rw [docPieces, hx] <;> first | decide | (intro items h; exact Json.noConfusion h)
    | bool b => rw [docPieces, hx] <;> first | decide | (intro items h; exact Json.noConfusion h)
    | num n => rw [docPieces, hx] <;> first | decide | (intro items h; exact Json.noConfusion h)
    | str s => rw [docPieces, hx] <;> first | decide | (intro items h; exact Json.noConfusion h)
    | obj o => rw [docPieces, hx] <;> first | decide | (intro items h; exact Json.noConfusion h)
  rw [wholeDocEvents, hp]
  decide

/-- Witness for C7 at a concrete provider response. -/
theorem C7_whole_document_witness :
    trimStr (extractText (Json.str "Paris is the capital of France.")) =
      "Paris is the capital of France." ∧
    wholeDocEvents (Json.str "Paris is the capital of France.") =
      ["data: \x7b\"choices\":[\x7b\"delta\":\x7b\"content\":\"Paris is the capital of France.\"\x7d\x7d]\x7d\n\n",
       "data: [DONE]\n\n"] :=
  ⟨by decide, C7_whole_document (Json.str "Paris is the capital of France.")
    (fun a h => Json.noConfusion h) (by decide)⟩

/-! ### Sanitizer idempotence (claim C8) -/

theorem str_data_mk (l : List Char) : (String.mk l).data = l := rfl

theorem dropWhile_idem (p : Char → Bool) (l : List Char) :
    (l.dropWhile p).dropWhile p = l.dropWhile p := by
  induction l with
  | nil => rfl
  | cons c t ih =>
    by_cases hc : p c
    · simp [List.dropWhile_cons, hc, ih]
    · simp [List.dropWhile_cons, hc]

theorem ltrim_rtrim (l : List Char) (h : l.dropWhile isWS = l) :
    ((l.reverse.dropWhile isWS).reverse).dropWhile isWS =
      (l.reverse.dropWhile isWS).reverse := by
  cases l with
  | nil => simp
  | cons c t =>
    have hc : ¬(isWS c = true) := by
      intro hcc
      rw [List.dropWhile_cons, if_pos hcc] at h
      have h1 : (t.dropWhile isWS).length ≤ t.length :=
        (List.dropWhile_suffix isWS).sublist.length_le
      rw [h] at h1
      simp at h1
    have hpre : ((c :: t).reverse.dropWhile isWS).reverse <+: (c :: t) := by
      have hsuf : (c :: t).reverse.dropWhile isWS <:+ (c :: t).reverse :=
        List.dropWhile_suffix isWS
      have := List.reverse_prefix.mpr hsuf
      simpa using this
    cases hrt : ((c :: t).reverse.dropWhile isWS).reverse with
    | nil => simp
    | cons d u =>
      rw [hrt] at hpre
      obtain ⟨w, hw⟩ := hpre
      rw [List.cons_append] at hw
      have hd : d = c := (List.cons.injEq d (u ++ w) c t).mp hw |>.1
      rw [List.dropWhile_cons, hd, if_neg hc]

theorem trim_trim (l : List Char) : trimChars (trimChars l) = trimChars l := by
  unfold trimChars
  rw [ltrim_rtrim (l.dropWhile isWS) (dropWhile_idem isWS l)]
  rw [List.reverse_reverse, dropWhile_idem]

theorem collapseWS_cons (c : Char) (rest : List Char) :
    collapseWS (c :: rest) =
      (if isWS c then
        match rest with
        | [] => [c]
        | c2 :: _ => if isWS c2 then ' ' :: collapseSkip rest else c :: collapseWS rest
      else c :: collapseWS rest) := by
  rw [collapseWS.eq_def]

theorem collapseSkip_cons (c : Char) (rest : List Char) :
    collapseSkip (c :: rest) =
      (if isWS c then collapseSkip rest else c :: collapseWS rest) := by
  rw [collapseSkip.eq_def]

theorem noAdjWS_cons (c : Char) (l : List Char) :
    noAdjWS (c :: l) = (!(isWS c && l.head?.any isWS) && noAdjWS l) := by
  cases l with
  | nil => simp [noAdjWS]
  | cons b t => simp [noAdjWS]

theorem collapseWS_head (l : List Char) :
    (collapseWS l).head?.any isWS = l.head?.any isWS := by
  cases l with
  | nil => rfl
  | cons c rest =>
    rw [collapseWS_cons]
    by_cases hc : isWS c
    · cases rest with
      | nil => simp [hc]
      | cons c2 t =>
        by_cases h2 : isWS c2
        · simp only [hc, h2, if_true, List.head?_cons, Option.any_some]
          rfl
        · simp [hc, h2]
    · simp [hc]

theorem collapseSkip_head (l : List Char) :
    (collapseSkip l).head?.any isWS = false := by
  induction l with
  | nil => rfl
  | cons c rest ih =>
    rw [collapseSkip_cons]
    by_cases hc : isWS c
    · simp [hc, ih]
    · simp [hc]

theorem collapse_noAdj_fuel : ∀ (n : Nat) (l : List Char), l.length ≤ n →
    noAdjWS (collapseWS l) = true ∧ noAdjWS (collapseSkip l) = true := by
  intro n
  induction n with
  | zero =>
    intro l h
    have : l = [] := List.length_eq_zero.mp (Nat.le_zero.mp h)
    subst this
    exact ⟨rfl, rfl⟩
  | succ n ih =>
    intro l h
    cases l with
    | nil => exact ⟨rfl, rfl⟩
    | cons c rest =>
      have hr : rest.length ≤ n := by
        simp only [List.length_cons] at h
        omega
      constructor
      · rw [collapseWS_cons]
        by_cases hc : isWS c
        · cases rest with
          | nil => simp [hc, noAdjWS]
          | cons c2 t =>
            by_cases h2 : isWS c2
            · simp only [hc, h2, if_true]
              rw [noAdjWS_cons, collapseSkip_head]
              simp [(ih _ hr).2]
            · simp only [hc, h2, if_true, if_false, Bool.false_eq_true]
              rw [noAdjWS_cons, collapseWS_head]
              simp only [List.head?_cons, Option.any_some]
              simp [h2, (ih _ hr).1]
        · simp only [hc, Bool.false_eq_true, if_false]
          rw [noAdjWS_cons, collapseWS_head]
          simp [hc, (ih _ hr).1]
      · rw [collapseSkip_cons]
        by_cases hc : isWS c
        · simpa [hc] using (ih _ hr).2
        · simp only [hc, Bool.false_eq_true, if_false]
          rw [noAdjWS_cons, collapseWS_head]
          simp [hc, (ih _ hr).1]

theorem collapseWS_noAdj (l : List Char) : noAdjWS (collapseWS l) = true :=
  (collapse_noAdj_fuel l.length l le_rfl).1

theorem collapse_of_noAdj_fuel : ∀ (n : Nat) (l : List Char), l.length ≤ n →
    noAdjWS l = true → collapseWS l = l := by
  intro n
  induction n with
  | zero =>
    intro l h _
    have : l = [] := List.length_eq_zero.mp (Nat.le_zero.mp h)
    subst this
    rfl
  | succ n ih =>
    intro l h hna
    cases l with
    | nil => rfl
    | cons c rest =>
      have hr : rest.length ≤ n := by
        simp only [List.length_cons] at h
        omega
      have hna2 : noAdjWS rest = true := by
        rw [noAdjWS_cons, Bool.and_eq_true] at hna
        exact hna.2
      rw [collapseWS_cons]
      by_cases hc : isWS c
      · cases rest with
        | nil => simp [hc]
        | cons c2 t =>
          have h2 : ¬(isWS c2 = true) := by
            intro h2
            rw [noAdjWS_cons, Bool.and_eq_true] at hna
            have := hna.1
            simp [hc, h2] at this
          simp only [hc, h2, if_true, if_false, Bool.false_eq_true]
          rw [ih _ hr hna2]
      · simp only [hc, Bool.false_eq_true, if_false]
        rw [ih _ hr hna2]

theorem collapseWS_fix (l : List Char) (h : noAdjWS l = true) : collapseWS l = l :=
  collapse_of_noAdj_fuel l.length l le_rfl h

theorem noAdjWS_append_singleton (l : List Char) (c : Char) :
    noAdjWS (l ++ [c]) = (noAdjWS l && !(l.getLast?.any isWS && isWS c)) := by
  induction l with
  | nil => simp [noAdjWS]
  | cons a t ih =>
    cases t with
    | nil => simp [noAdjWS]
    | cons b u =>
      have e1 : (a :: b :: u) ++ [c] = a :: ((b :: u) ++ [c]) := rfl
      have e2 : (b :: u) ++ [c] = b :: (u ++ [c]) := rfl
      rw [e1, e2, noAdjWS, ← e2, ih, List.getLast?_cons_cons, noAdjWS]
      rw [Bool.and_assoc]

theorem noAdjWS_reverse (l : List Char) : noAdjWS l.reverse = noAdjWS l := by
  induction l with
  | nil => rfl
  | cons a t ih =>
    rw [List.reverse_cons, noAdjWS_append_singleton, ih, List.getLast?_reverse,
      noAdjWS_cons]
    cases hn : noAdjWS t <;> cases hh : t.head?.any isWS <;> cases hw : isWS a <;> simp

theorem noAdjWS_dropWhile (p : Char → Bool) (l : List Char)
    (h : noAdjWS l = true) : noAdjWS (l.dropWhile p) = true := by
  induction l with
  | nil => exact h
  | cons c t ih =>
    rw [List.dropWhile_cons]
    by_cases hc : p c
    · simp only [hc, if_true]
      apply ih
      rw [noAdjWS_cons, Bool.and_eq_true] at h
      exact h.2
    · simp only [hc, Bool.false_eq_true, if_false]
      exact h

theorem noAdjWS_trim (l : List Char) (h : noAdjWS l = true) :
    noAdjWS (trimChars l) = true := by
  unfold trimChars
  rw [noAdjWS_reverse]
  exact noAdjWS_dropWhile _ _ (by rw [noAdjWS_reverse]; exact noAdjWS_dropWhile _ _ h)

/-- Counterexample to claim C8 as stated: `sanitize` is not idempotent.
Removing `TEXT1` from `moTEXT1del` creates the token `model`, which only a
second run removes: `sanitize("moTEXT1del") = "model"` but
`sanitize(sanitize("moTEXT1del")) = ""`. -/
theorem C8_counterexample :
    sanitizeText (sanitizeText "moTEXT1del") ≠ sanitizeText "moTEXT1del" := by decide

/-- Claim C8 (amended): `sanitize` is idempotent on every input whose
sanitized form is free of the four token patterns, i.e. whenever the four
token-removal passes leave `sanitize x` unchanged (which fails only when a
removal or the whitespace collapse manufactures a new token, as in the
counterexample); in that case `sanitize (sanitize x) = sanitize x`. -/
theorem C8_sanitize_conditional_idempotent (x : String)
    (hM : stripModel (sanitizeText x).data = (sanitizeText x).data)
    (hT : stripTextNum (sanitizeText x).data = (sanitizeText x).data)
    (hS : stripStop (sanitizeText x).data = (sanitizeText x).data)
    (hL : stripLong (sanitizeText x).data = (sanitizeText x).data) :
    sanitizeText (sanitizeText x) = sanitizeText x := by
  by_cases hx : sanitizeText x = ""
  · rw [hx]
    decide
  · have hbe : (sanitizeText x == "") = false := beq_eq_false_iff_ne.mpr hx
    conv_lhs => rw [sanitizeText]
    rw [hbe]
    simp only [Bool.false_eq_true, if_false]
    rw [hM, hT, hS, hL]
    by_cases hx0 : x = ""
    · subst hx0
      exact absurd (by decide : sanitizeText "" = "") hx
    · have hxe : (x == "") = false := beq_eq_false_iff_ne.mpr hx0
      rw [sanitizeText, hxe]
      simp only [Bool.false_eq_true, if_false]
      refine congrArg String.mk ?_
      rw [str_data_mk]
      rw [collapseWS_fix _ (noAdjWS_trim _ (collapseWS_noAdj _))]
      exact trim_trim _

/-- Witness for the amended C8 at a token-free input. -/
theorem C8_sanitize_conditional_idempotent_witness :
    stripModel (sanitizeText "hello world").data = (sanitizeText "hello world").data ∧
    stripTextNum (sanitizeText "hello world").data = (sanitizeText "hello world").data ∧
    stripStop (sanitizeText "hello world").data = (sanitizeText "hello world").data ∧
    stripLong (sanitizeText "hello world").data = (sanitizeText "hello world").data ∧
    sanitizeText (sanitizeText "hello world") = sanitizeText "hello world" :=
  ⟨by decide, by decide, by decide, by decide,
    C8_sanitize_conditional_idempotent "hello world"
      (by decide) (by decide) (by decide) (by decide)⟩

/-! ### Extractor fallback (claim C2, amended): size lemmas and fuel
monotonicity for the client-side collector. -/

theorem sizeJ_pos (j : Json) : 1 ≤ sizeJ j := by
  cases j <;> simp [sizeJ]

theorem lookupO_size : ∀ (o : JsonObj) (k : String) (v : Json),
    lookupO o k = some v → sizeJ v < sizeO o
  | .nil, k, v, h => absurd h (by simp [lookupO])
  | .cons k2 v2 tl, k, v, h => by
    rw [lookupO] at h
    split at h
    · cases h
      rw [sizeO]
      omega
    · have := lookupO_size tl k v h
      rw [sizeO]
      omega

theorem jGet_size (j : Json) (k : String) (v : Json)
    (h : jGet j k = some v) : sizeJ v < sizeJ j := by
  cases j <;> simp [jGet] at h
  case obj o =>
    have := lookupO_size o k v h
    rw [sizeJ]
    omega

theorem jGet2_size (j : Json) (k1 k2 : String) (v : Json)
    (h : jGet2 j k1 k2 = some v) : sizeJ v < sizeJ j := by
  unfold jGet2 at h
  cases hm : jGet j k1 with
  | none => rw [hm] at h; simp at h
  | some m =>
    rw [hm] at h
    simp at h
    exact lt_trans (jGet_size m k2 v h) (jGet_size j k1 m hm)

theorem jGetT2_size (j : Json) (k1 k2 : String) (v : Json)
    (h : jGetT2 j k1 k2 = some v) : sizeJ v < sizeJ j := by
  unfold jGetT2 at h
  split at h
  case h_2 => exact absurd h (by simp)
  case h_1 m hm =>
    split at h
    case isFalse => exact absurd h (by simp)
    case isTrue =>
      split at h
      case h_2 => exact absurd h (by simp)
      case h_1 v2 hv2 =>
        split at h
        case isFalse => exact absurd h (by simp)
        case isTrue =>
          cases h
          exact lt_trans (jGet_size m k2 _ hv2) (jGet_size j k1 m hm)

theorem memA_size : ∀ (x : Json) (l : JsonArr), x ∈ toListA l → sizeJ x < sizeA l
  | x, .nil, h => absurd h (by simp [toListA])
  | x, .cons hd tl, h => by
    rw [toListA] at h
    rcases List.mem_cons.mp h with h1 | h2
    · subst h1
      rw [sizeA]
      omega
    · have := memA_size x tl h2
      rw [sizeA]
      omega

theorem fieldsO_size : ∀ (kv : String × Json) (o : JsonObj),
    kv ∈ fieldsO o → sizeJ kv.2 < sizeO o
  | kv, .nil, h => absurd h (by simp [fieldsO])
  | kv, .cons k2 v2 tl, h => by
    rw [fieldsO] at h
    rcases List.mem_cons.mp h with h1 | h2
    · subst h1
      rw [sizeO]
      show sizeJ v2 < sizeJ v2 + sizeO tl + 1
      omega
    · have := fieldsO_size kv tl h2
      rw [sizeO]
      omega

theorem clChoiceScan_congr (r1 r2 : Json → String) (cs : List Json)
    (h : ∀ c ∈ cs, ∀ mc, jGetT2 c "message" "content" = some mc → r1 mc = r2 mc) :
    clChoiceScan r1 cs = clChoiceScan r2 cs := by
  induction cs with
  | nil => rfl
  | cons c cs ih =>
    have hc := h c (List.mem_cons_self c cs)
    have ht : ∀ c' ∈ cs, ∀ mc, jGetT2 c' "message" "content" = some mc → r1 mc = r2 mc :=
      fun c' hc' => h c' (List.mem_cons_of_mem c hc')
    rw [clChoiceScan, clChoiceScan]
    cases hd : clDeltaContent c with
    | some s => rfl
    | none =>
      cases hm : jGetT2 c "message" "content" with
      | some mc => exact congrArg some (hc mc hm)
      | none =>
        cases htx : jGet c "text" with
        | some t =>
          show (if truthy t = true then some (jsString t) else clChoiceScan r1 cs) =
            (if truthy t = true then some (jsString t) else clChoiceScan r2 cs)
          by_cases htr : truthy t = true
          · simp [htr]
          · simp [htr, ih ht]
        | none => exact ih ht

theorem clObjRest_congr (r1 r2 : Json → String) (o : JsonObj)
    (h : ∀ v, sizeJ v < sizeO o + 1 → r1 v = r2 v) :
    clObjRest r1 o = clObjRest r2 o := by
  have hfb : String.join ((fieldsO o).map (fun kv => r1 kv.2)) =
      String.join ((fieldsO o).map (fun kv => r2 kv.2)) :=
    congrArg String.join (List.map_congr_left
      (fun kv hkv => h kv.2 (by have := fieldsO_size kv o hkv; omega)))
  rw [clObjRest, clObjRest]
  cases ho : jGetT2 (.obj o) "output" "content" with
  | some oc =>
    exact h oc (by have := jGetT2_size _ _ _ _ ho; rwa [sizeJ] at this)
  | none =>
    cases hc : lookupO o "candidates" with
    | some v =>
      cases v with
      | arr cands =>
        have hsz : sizeA cands < sizeO o := by
          have := lookupO_size o "candidates" _ hc
          rw [sizeJ] at this
          omega
        exact congrArg String.join (List.map_congr_left
          (fun x hx => h x (by have := memA_size x cands hx; omega)))
      | null =>
        cases hp : lookupO o "parts" with
        | none => exact hfb
        | some w => cases w <;> first | rfl | exact hfb
      | bool b =>
        cases hp : lookupO o "parts" with
        | none => exact hfb
        | some w => cases w <;> first | rfl | exact hfb
      | num n =>
        cases hp : lookupO o "parts" with
        | none => exact hfb
        | some w => cases w <;> first | rfl | exact hfb
      | str s =>
        cases hp : lookupO o "parts" with
        | none => exact hfb
        | some w => cases w <;> first | rfl | exact hfb
      | obj o2 =>
        cases hp : lookupO o "parts" with
        | none => exact hfb
        | some w => cases w <;> first | rfl | exact hfb
    | none =>
      cases hp : lookupO o "parts" with
      | none => exact hfb
      | some w => cases w <;> first | rfl | exact hfb

theorem collectTextF_mono : ∀ (n : Nat) (j : Json) (m : Nat),
    sizeJ j ≤ n → sizeJ j ≤ m → collectTextF n j = collectTextF m j
  | 0, j, _, h1, _ => absurd (le_trans (sizeJ_pos j) h1) (by omega)
  | _+1, j, 0, _, h2 => absurd (le_trans (sizeJ_pos j) h2) (by omega)
  | n'+1, j, m'+1, h1, h2 => by
    cases j with
    | null => rfl
    | bool b => rfl
    | num k => rfl
    | str s => rfl
    | arr l =>
      simp only [collectTextF]
      refine congrArg String.join (List.map_congr_left ?_)
      intro x hx
      have hs1 : sizeA l + 1 ≤ n' + 1 := h1
      have hs2 : sizeA l + 1 ≤ m' + 1 := h2
      have hm := memA_size x l hx
      exact collectTextF_mono n' x m' (by omega) (by omega)
    | obj o =>
      have hno : sizeO o + 1 ≤ n' + 1 := h1
      have hmo : sizeO o + 1 ≤ m' + 1 := h2
      simp only [collectTextF]
      cases ht : getStrO (lookupO o "text") with
      | some s => rfl
      | none =>
        cases hdc : clDeltaContent (Json.obj o) with
        | some s => rfl
        | none =>
          have hrest : clObjRest (collectTextF n') o = clObjRest (collectTextF m') o := by
            apply clObjRest_congr
            intro v hv
            exact collectTextF_mono n' v m' (by omega) (by omega)
          cases hc : lookupO o "choices" with
          | none => exact hrest
          | some v =>
            cases v with
            | arr cs =>
              have hcs : sizeA cs + 1 < sizeO o := lookupO_size o "choices" _ hc
              have hscan : clChoiceScan (collectTextF n') (toListA cs) =
                  clChoiceScan (collectTextF m') (toListA cs) := by
                apply clChoiceScan_congr
                intro c hcmem mc hmc
                have hszc : sizeJ c < sizeA cs := memA_size c cs hcmem
                have hszm : sizeJ mc < sizeJ c := jGetT2_size c _ _ mc hmc
                exact collectTextF_mono n' mc m' (by omega) (by omega)
              show (match clChoiceScan (collectTextF n') (toListA cs) with
                | some s => s
                | none => clObjRest (collectTextF n') o) =
                (match clChoiceScan (collectTextF m') (toListA cs) with
                | some s => s
                | none => clObjRest (collectTextF m') o)
              rw [hscan]
              cases clChoiceScan (collectTextF m') (toListA cs) with
              | some s => rfl
              | none => exact hrest
            | null => exact hrest
            | bool b => exact hrest
            | num k => exact hrest
            | str s => exact hrest
            | obj o2 => exact hrest

/-- Claim C2 (amended): for every JSON object with none of the recognized
fields (`text`, `delta`, `choices`, `output`, `candidates`, `parts`,
`content`), the client-side `collectText` falls through to the fallback
traversal and returns the concatenation of `collectText` over every field's
value (hence all leaf strings), never throwing (it is total by
construction); the server-side `extractText` has no fallback traversal and
returns the empty string on such objects. -/
theorem C2_client_fallback_server_empty (o : JsonObj)
    (htext : lookupO o "text" = none) (hdelta : lookupO o "delta" = none)
    (hchoices : lookupO o "choices" = none) (houtput : lookupO o "output" = none)
    (hcands : lookupO o "candidates" = none) (hparts : lookupO o "parts" = none)
    (hcontent : lookupO o "content" = none) :
    collectText (Json.obj o) =
      String.join ((fieldsO o).map (fun kv => collectText kv.2)) ∧
    extractText (Json.obj o) = "" := by
  have h2 : clDeltaContent (Json.obj o) = none := by
    unfold clDeltaContent
    show (match lookupO o "delta" with
      | some d => if truthy d then getStrO (jGet d "content") else none
      | none => none) = none
    rw [hdelta]
  have h3 : jGetT2 (Json.obj o) "output" "content" = none := by
    unfold jGetT2
    show (match lookupO o "output" with
      | some m => _
      | none => none) = none
    rw [houtput]
  constructor
  · show collectTextF (sizeO o + 1) (Json.obj o) = _
    simp only [collectTextF]
    rw [htext]
    simp only [getStrO, h2, hchoices]
    rw [clObjRest]
    simp only [h3, hcands, hparts]
    refine congrArg String.join (List.map_congr_left ?_)
    intro kv hkv
    exact collectTextF_mono (sizeO o) kv.2 (sizeJ kv.2)
      (le_of_lt (fieldsO_size kv o hkv)) le_rfl
  · show extractTextF (sizeO o + 1) (Json.obj o) = ""
    simp only [extractTextF]
    simp only [hchoices]
    rw [svAfterChoices]
    simp only [hcands]
    rw [svObjRest]
    simp only [h3, hcontent]
    rw [svObjTail]
    simp only [hparts]
    show (clDeltaContent (Json.obj o)).getD "" = ""
    rw [h2]
    rfl

/-- Witness for the amended C2 at the unrecognized object `{"foo":"bar"}`. -/
theorem C2_client_fallback_server_empty_witness :
    collectText (Json.obj (.cons "foo" (.str "bar") .nil)) =
      String.join ((fieldsO (.cons "foo" (.str "bar") .nil)).map
        (fun kv => collectText kv.2)) ∧
    extractText (Json.obj (.cons "foo" (.str "bar") .nil)) = "" :=
  C2_client_fallback_server_empty (.cons "foo" (.str "bar") .nil)
    (by decide) (by decide) (by decide) (by decide) (by decide) (by decide) (by decide)

/-! ### Chunk-boundary invariance of the SSE split (claim C1).
The key fact is that splitting on the blank-line separator commutes with
appending further input: the fragments before the final one are stable, and
only the final (possibly incomplete) fragment combines with new input. -/

theorem eatNl_len (l u : List Char) (h : eatNl l = some u) :
    u.length + 1 ≤ l.length := by
  rw [eatNl.eq_def] at h
  split at h
  · cases h
    simp
  · cases h
    simp
  · exact absurd h (by simp)

theorem matchSepAt_len (l post : List Char) (h : matchSepAt l = some post) :
    post.length + 2 ≤ l.length := by
  unfold matchSepAt at h
  cases hu : eatNl l with
  | none => rw [hu] at h; simp at h
  | some u =>
    rw [hu] at h
    simp at h
    have h1 := eatNl_len l u hu
    have h2 := eatNl_len u post h
    omega

theorem eatNl_shape (l u : List Char) (h : eatNl l = some u) :
    l = '\r' :: '\n' :: u ∨ l = '\n' :: u := by
  rw [eatNl.eq_def] at h
  split at h
  · cases h
    exact Or.inl rfl
  · cases h
    exact Or.inr rfl
  · exact absurd h (by simp)

theorem eatNl_append (l t u : List Char) (h : eatNl l = some u) :
    eatNl (l ++ t) = some (u ++ t) := by
  rcases eatNl_shape l u h with h1 | h1 <;> subst h1 <;> rfl

theorem eatNl_none_append (l t : List Char) (h1 : eatNl l = none)
    (h2 : eatNl (l ++ t) ≠ none) : l = [] ∨ l = ['\r'] := by
  cases l with
  | nil => exact Or.inl rfl
  | cons c l2 =>
    by_cases hr : c = '\r'
    · subst hr
      cases l2 with
      | nil => exact Or.inr rfl
      | cons c2 l3 =>
        by_cases hn : c2 = '\n'
        · subst hn
          exact absurd h1 (by simp [eatNl])
        · refine absurd ?_ h2
          rw [eatNl.eq_def]
          simp [hn]
    · by_cases hn : c = '\n'
      · subst hn
        exact absurd h1 (by simp [eatNl])
      · refine absurd ?_ h2
        rw [eatNl.eq_def]
        simp [hr, hn]

theorem matchSepAt_append (s t post : List Char) (h : matchSepAt s = some post) :
    matchSepAt (s ++ t) = some (post ++ t) := by
  unfold matchSepAt at h ⊢
  cases hu : eatNl s with
  | none => rw [hu] at h; simp at h
  | some u =>
    rw [hu] at h
    simp at h
    rw [eatNl_append s t u hu]
    simp
    exact eatNl_append u t post h

theorem matchSepAt_partial (s t q : List Char) (h1 : matchSepAt s = none)
    (h2 : matchSepAt (s ++ t) = some q) :
    s = [] ∨ s = ['\r'] ∨ s = ['\n'] ∨ s = ['\r', '\n'] ∨ s = ['\n', '\r'] ∨
      s = ['\r', '\n', '\r'] := by
  unfold matchSepAt at h1 h2
  cases hu2 : eatNl (s ++ t) with
  | none => rw [hu2] at h2; simp at h2
  | some u2 =>
    rw [hu2] at h2
    simp at h2
    cases hu : eatNl s with
    | none =>
      rcases eatNl_none_append s t hu (by rw [hu2]; simp) with h | h
      · exact Or.inl h
      · exact Or.inr (Or.inl h)
    | some u =>
      rw [hu] at h1
      simp at h1
      have hu2e : u2 = u ++ t := by
        have := eatNl_append s t u hu
        rw [hu2] at this
        exact Option.some.inj this
      subst hu2e
      rcases eatNl_none_append u t h1 (by rw [h2]; simp) with h | h <;>
        rcases eatNl_shape s u hu with hs | hs <;> subst h <;> subst hs <;> simp

theorem splitEvF_succ (n : Nat) (l : List Char) :
    splitEvF (n+1) l =
      (match matchSepAt l with
       | some post => [] :: splitEvF n post
       | none =>
         match l with
         | [] => [[]]
         | c :: rest => consHead c (splitEvF n rest)) := rfl

theorem splitEvF_succ_sep (n : Nat) (l post : List Char)
    (h : matchSepAt l = some post) :
    splitEvF (n+1) l = [] :: splitEvF n post := by
  rw [splitEvF_succ, h]

theorem splitEvF_succ_nosep_cons (n : Nat) (c : Char) (rest : List Char)
    (h : matchSepAt (c :: rest) = none) :
    splitEvF (n+1) (c :: rest) = consHead c (splitEvF n rest) := by
  rw [splitEvF_succ, h]

theorem splitEvF_nil (n : Nat) : splitEvF n [] = [[]] := by
  cases n with
  | zero => rfl
  | succ n' => rfl

theorem splitEvF_mono : ∀ (n : Nat) (l : List Char) (m : Nat),
    l.length ≤ n → l.length ≤ m → splitEvF n l = splitEvF m l
  | 0, l, m, h1, _ => by
    have : l = [] := List.length_eq_zero.mp (Nat.le_zero.mp h1)
    subst this
    rw [splitEvF_nil, splitEvF_nil]
  | _+1, l, 0, _, h2 => by
    have : l = [] := List.length_eq_zero.mp (Nat.le_zero.mp h2)
    subst this
    rw [splitEvF_nil, splitEvF_nil]
  | n'+1, l, m'+1, h1, h2 => by
    cases hm : matchSepAt l with
    | some post =>
      have := matchSepAt_len l post hm
      rw [splitEvF_succ_sep n' l post hm, splitEvF_succ_sep m' l post hm]
      rw [splitEvF_mono n' post m' (by omega) (by omega)]
    | none =>
      cases l with
      | nil => rw [splitEvF_nil, splitEvF_nil]
      | cons c rest =>
        simp only [List.length_cons] at h1 h2
        rw [splitEvF_succ_nosep_cons n' c rest hm, splitEvF_succ_nosep_cons m' c rest hm]
        rw [splitEvF_mono n' rest m' (by omega) (by omega)]

theorem splitEv_nil : splitEv [] = [[]] := rfl

theorem splitEv_sep (l post : List Char) (h : matchSepAt l = some post) :
    splitEv l = [] :: splitEv post := by
  have hlen := matchSepAt_len l post h
  unfold splitEv
  have hk : l.length = (l.length - 1) + 1 := by omega
  rw [hk, splitEvF_succ_sep (l.length - 1) l post h]
  rw [splitEvF_mono (l.length - 1) post post.length (by omega) le_rfl]

theorem splitEv_nosep_cons (c : Char) (rest : List Char)
    (h : matchSepAt (c :: rest) = none) :
    splitEv (c :: rest) = consHead c (splitEv rest) := by
  unfold splitEv
  rw [show (c :: rest).length = rest.length + 1 from rfl,
    splitEvF_succ_nosep_cons rest.length c rest h]

theorem consHead_ne_nil (c : Char) (fs : List (List Char)) : consHead c fs ≠ [] := by
  cases fs <;> simp [consHead]

theorem splitEv_ne_nil (l : List Char) : splitEv l ≠ [] := by
  cases hm : matchSepAt l with
  | some post => rw [splitEv_sep l post hm]; simp
  | none =>
    cases l with
    | nil => rw [splitEv_nil]; simp
    | cons c rest =>
      rw [splitEv_nosep_cons c rest hm]
      exact consHead_ne_nil c (splitEv rest)

theorem splitEv_singleton : ∀ (n : Nat) (l x : List Char), l.length ≤ n →
    splitEv l = [x] → x = l
  | n, l, x, hn, h => by
    cases hm : matchSepAt l with
    | some post =>
      rw [splitEv_sep l post hm] at h
      have h2 : splitEv post = [] := (List.cons.injEq [] (splitEv post) x []).mp h |>.2
      exact absurd h2 (splitEv_ne_nil post)
    | none =>
      cases l with
      | nil =>
        rw [splitEv_nil] at h
        exact ((List.cons.injEq [] [] x []).mp h |>.1).symm
      | cons c rest =>
        cases n with
        | zero => simp at hn
        | succ n' =>
          rw [splitEv_nosep_cons c rest hm] at h
          cases hr : splitEv rest with
          | nil => exact absurd hr (splitEv_ne_nil rest)
          | cons r rs =>
            rw [hr] at h
            simp only [consHead] at h
            have h1 : c :: r = x := (List.cons.injEq (c :: r) rs x []).mp h |>.1
            have h2 : rs = [] := (List.cons.injEq (c :: r) rs x []).mp h |>.2
            subst h2
            have hrr := splitEv_singleton n' rest r
              (by simp only [List.length_cons] at hn; omega) hr
            subst hrr
            exact h1.symm

theorem getLastD_irrel (l : List (List Char)) (d1 d2 : List Char) (h : l ≠ []) :
    l.getLastD d1 = l.getLastD d2 := by
  cases l with
  | nil => exact absurd rfl h
  | cons a t => rw [List.getLastD_cons, List.getLastD_cons]

theorem splitEv_append : ∀ (n : Nat) (s t : List Char), s.length ≤ n →
    splitEv (s ++ t) =
      (splitEv s).dropLast ++ splitEv ((splitEv s).getLastD [] ++ t)
  | 0, s, t, hn => by
    have : s = [] := List.length_eq_zero.mp (Nat.le_zero.mp hn)
    subst this
    rw [splitEv_nil]
    simp
  | n'+1, s, t, hn => by
    cases hm : matchSepAt s with
    | some post =>
      have hlen := matchSepAt_len s post hm
      have hms := matchSepAt_append s t post hm
      rw [splitEv_sep (s ++ t) (post ++ t) hms, splitEv_sep s post hm]
      rw [splitEv_append n' post t (by omega)]
      cases hp : splitEv post with
      | nil => exact absurd hp (splitEv_ne_nil post)
      | cons p ps => rfl
    | none =>
      cases s with
      | nil =>
        rw [splitEv_nil]
        simp
      | cons c rest =>
        cases hmt : matchSepAt ((c :: rest) ++ t) with
        | some q =>
          rcases matchSepAt_partial (c :: rest) t q hm hmt with h | h | h | h | h | h
          · exact absurd h (by simp)
          · rw [h, show splitEv ['\r'] = [['\r']] from by decide]
            simp [List.getLastD]
          · rw [h, show splitEv ['\n'] = [['\n']] from by decide]
            simp [List.getLastD]
          · rw [h, show splitEv ['\r', '\n'] = [['\r', '\n']] from by decide]
            simp [List.getLastD]
          · rw [h, show splitEv ['\n', '\r'] = [['\n', '\r']] from by decide]
            simp [List.getLastD]
          · rw [h, show splitEv ['\r', '\n', '\r'] = [['\r', '\n', '\r']] from by decide]
            simp [List.getLastD]
        | none =>
          have hmt2 : matchSepAt (c :: (rest ++ t)) = none := hmt
          rw [show (c :: rest) ++ t = c :: (rest ++ t) from rfl]
          rw [splitEv_nosep_cons c (rest ++ t) hmt2, splitEv_nosep_cons c rest hm]
          rw [splitEv_append n' rest t
            (by simp only [List.length_cons] at hn; omega)]
          cases hr : splitEv rest with
          | nil => exact absurd hr (splitEv_ne_nil rest)
          | cons r rs =>
            cases rs with
            | nil =>
              have hrr : r = rest := splitEv_singleton rest.length rest r le_rfl hr
              rw [hrr]
              simp only [consHead, List.dropLast_single, List.getLastD_cons,
                List.getLastD_nil, List.nil_append, List.cons_append]
              rw [splitEv_nosep_cons c (rest ++ t) hmt2]
              rfl
            | cons r2 rs2 =>
              simp only [consHead, List.dropLast_cons₂, List.getLastD_cons,
                List.cons_append]

theorem getLastD_append (l1 l2 : List (List Char)) (h : l2 ≠ []) :
    (l1 ++ l2).getLastD [] = l2.getLastD [] := by
  rw [List.getLastD_eq_getLast?, List.getLastD_eq_getLast?, List.getLast?_append]
  cases hx : l2.getLast? with
  | some x => rfl
  | none => exact absurd (List.getLast?_eq_none_iff.mp hx) h

theorem stepChunk_append (st : List (List Char) × List Char) (c d : List Char) :
    stepChunk (stepChunk st c) d = stepChunk st (c ++ d) := by
  obtain ⟨ds, buf⟩ := st
  simp only [stepChunk]
  have hC : splitEv (buf ++ (c ++ d)) =
      (splitEv (buf ++ c)).dropLast ++
        splitEv ((splitEv (buf ++ c)).getLastD [] ++ d) := by
    rw [← List.append_assoc]
    exact splitEv_append (buf ++ c).length (buf ++ c) d le_rfl
  rw [hC]
  have hne : splitEv ((splitEv (buf ++ c)).getLastD [] ++ d) ≠ [] := splitEv_ne_nil _
  rw [List.dropLast_append_of_ne_nil _ hne, getLastD_append _ _ hne,
    List.filterMap_append, List.append_assoc]

theorem foldl_stepChunk_flatten : ∀ (cs : List (List Char)) (c : List Char)
    (st : List (List Char) × List Char),
    List.foldl stepChunk st (c :: cs) = stepChunk st (c ++ cs.flatten) := by
  intro cs
  induction cs with
  | nil =>
    intro c st
    simp [List.foldl]
  | cons c2 cs ih =>
    intro c st
    rw [List.foldl_cons, ih c2 (stepChunk st c), stepChunk_append, List.flatten_cons]

/-- Claim C1: for every way the canonical SSE byte stream (two deltas `Hel`
and `lo` followed by `[DONE]`) is cut into chunks, EventStreamReader
reassembles events split across chunk boundaries and yields exactly the
delta sequence `["Hel", "lo"]`, then stops. -/
theorem C1_chunk_reassembly (chunks : List String)
    (h : (chunks.map String.data).flatten = canonicalHelloStream.data) :
    roundDeltas chunks = ["Hel", "lo"] := by
  have hpc : processChunks chunks = stepChunk ([], []) canonicalHelloStream.data := by
    unfold processChunks
    cases hcc : chunks.map String.data with
    | nil =>
      rw [hcc] at h
      exact absurd h (by decide)
    | cons c cs =>
      rw [hcc] at h
      rw [foldl_stepChunk_flatten, ← List.flatten_cons, h]
  unfold roundDeltas
  rw [hpc]
  decide

/-- Witness for C1 at the two-chunk cut of the canonical stream (the second
chunk splits mid-event relative to the blank-line framing). -/
theorem C1_chunk_reassembly_witness :
    ((["data: \x7b\"choices\":[\x7b\"delta\":\x7b\"content\":\"Hel\"\x7d\x7d]\x7d\n\n",
       "data: \x7b\"choices\":[\x7b\"delta\":\x7b\"content\":\"lo\"\x7d\x7d]\x7d\n\ndata: [DONE]\n\n"]
      : List String).map String.data).flatten = canonicalHelloStream.data ∧
    roundDeltas
      ["data: \x7b\"choices\":[\x7b\"delta\":\x7b\"content\":\"Hel\"\x7d\x7d]\x7d\n\n",
       "data: \x7b\"choices\":[\x7b\"delta\":\x7b\"content\":\"lo\"\x7d\x7d]\x7d\n\ndata: [DONE]\n\n"] =
      ["Hel", "lo"] :=
  ⟨by decide, C1_chunk_reassembly _ (by decide)⟩
